import Mathlib

/-!
Verification of the Qt Creator symbol-indexing pipeline
(`src/tools/clangrefactoringbackend/source/symbolindexing.h`) and of the
QML profiler statistics view (`qmlprofilerstatisticsview.cpp`).

The `SymbolIndexing` class itself (constructor, destructor, `syncTasks`,
member wiring) is embedded from the header.  The collaborators it drives
(`SymbolIndexerTaskQueue`, `SymbolIndexerTaskScheduler`, `SymbolStorage`,
`SymbolIndexer`, `FileStatusCache`) are declared there but their bodies
live outside the sources at hand, so they are modelled from the spec;
every such definition carries a doc comment saying so.
-/

namespace QtCreatorSpec

/-! ## Data model: indexing tasks and the deduplicating task queue -/

/-- An indexing task: a file (by its interned `FilePathID`, modelled as `Nat`)
together with the project-part context it is to be indexed under. -/
structure IndexingTask where
  filePathId : Nat
  projectPartId : Nat
deriving DecidableEq

/-- The `FilePathID`s of the tasks held by a queue, in queue order. -/
def queueFids (q : List IndexingTask) : List Nat :=
  q.map (fun t => t.filePathId)

/-- Modelled from the spec: `SymbolIndexerTaskQueue::push` (body not among
the sources at hand).  Pushing a task whose `FilePathID` is already present
replaces the stored project-part context in place rather than appending;
otherwise the task is appended in FIFO position. -/
def pushTask (q : List IndexingTask) (t : IndexingTask) : List IndexingTask :=
  if q.any (fun u => u.filePathId == t.filePathId) then
    q.map (fun u => if u.filePathId == t.filePathId then t else u)
  else
    q ++ [t]

/-! ## The task scheduler -/

/-- A future tracked by the scheduler; the only observable at this layer is
whether it has finished. -/
structure Future where
  finished : Bool
deriving DecidableEq

/-- Modelled from the spec: the state of `SymbolIndexerTaskScheduler`
(body not among the sources at hand): a concurrency limit (number of
slots), a dispatch-enabled flag, the collection of tracked futures, and
the pending queue it pops from. -/
structure Scheduler where
  limit : Nat
  enabled : Bool
  futures : List Future
  queue : List IndexingTask
deriving DecidableEq

/-- Modelled from the spec: the dispatch step shared by every scheduling
opportunity — while a free slot exists and dispatch is enabled, pop a
pending task and record an unfinished future against the slot.  When
dispatch is disabled, pops return unused and nothing is recorded. -/
def dispatchPending (s : Scheduler) : Scheduler :=
  if s.enabled then
    let k := min (s.limit - s.futures.length) s.queue.length
    { s with futures := s.futures ++ List.replicate k ⟨false⟩,
             queue := s.queue.drop k }
  else s

/-- Modelled from the spec: `SymbolIndexerTaskScheduler::disable` stops new
dispatch but does not cancel futures already running. -/
def schedulerDisable (s : Scheduler) : Scheduler :=
  { s with enabled := false }

/-- Modelled from the spec: `SymbolIndexerTaskScheduler::syncTasks` blocks
until all currently-tracked futures complete; afterwards every tracked
future is finished. -/
def schedulerSyncTasks (s : Scheduler) : Scheduler :=
  { s with futures := s.futures.map (fun _ => ⟨true⟩) }

/-- Modelled from the spec: `SymbolIndexerTaskScheduler::freeSlots` scans
the slots, releases every slot whose future is finished, and immediately
tries to schedule pending tasks onto the freed slots. -/
def schedulerFreeSlots (s : Scheduler) : Scheduler :=
  dispatchPending { s with futures := s.futures.filter (fun f => !f.finished) }

/-- Modelled from the spec: enqueuing a task pushes it through the
deduplicating queue and then takes a scheduling opportunity. -/
def schedulerEnqueue (s : Scheduler) (t : IndexingTask) : Scheduler :=
  dispatchPending { s with queue := pushTask s.queue t }

/-- The scheduler operations an external driver can perform. -/
inductive SchedOp where
  | enqueue (t : IndexingTask)
  | freeSlots
  | sync
  | disable
deriving DecidableEq

/-- Apply one scheduler operation. -/
def applyOp (s : Scheduler) : SchedOp → Scheduler
  | .enqueue t => schedulerEnqueue s t
  | .freeSlots => schedulerFreeSlots s
  | .sync => schedulerSyncTasks s
  | .disable => schedulerDisable s

/-- Run a sequence of scheduler operations from a starting state. -/
def runOps (s : Scheduler) (ops : List SchedOp) : Scheduler :=
  ops.foldl applyOp s

/-- The scheduler `SymbolIndexing`'s constructor builds: limit taken from
the host's hardware concurrency count (`std::thread::hardware_concurrency()`
in the member initializer), dispatch enabled, no futures, empty queue. -/
def mkSymbolIndexingScheduler (hw : Nat) : Scheduler :=
  { limit := hw, enabled := true, futures := [], queue := [] }

/-- The drain loop of `SymbolIndexing::syncTasks` (symbolindexing.h,
`while (!futures().empty()) { syncTasks(); freeSlots(); }`), with explicit
fuel; the fuel used below is provably sufficient. -/
def drainLoop : Nat → Scheduler → Scheduler
  | 0, s => s
  | n + 1, s =>
    if s.futures.isEmpty then s
    else drainLoop n (schedulerFreeSlots (schedulerSyncTasks s))

/-- `SymbolIndexing::syncTasks` (symbolindexing.h lines 77-84): disable the
scheduler, then repeatedly synchronize tasks and free slots until the
scheduler tracks no futures. -/
def symbolIndexingSyncTasks (s : Scheduler) : Scheduler :=
  drainLoop (s.futures.length + 1) (schedulerDisable s)

/-- `SymbolIndexing::~SymbolIndexing` (symbolindexing.h lines 67-70): the
destructor body is exactly a call to `syncTasks()`. -/
def symbolIndexingDestructor (s : Scheduler) : Scheduler :=
  symbolIndexingSyncTasks s

/-! ## The indexer (orchestrator) -/

/-- A project part as far as the indexer is concerned: an identifier and
the `FilePathID`s of the files it references. -/
structure ProjectPart where
  partId : Nat
  files : List Nat
deriving DecidableEq

/-- Modelled from the spec: the per-part step of
`SymbolIndexer::updateProjectParts` (body not among the sources at hand) —
each referenced file is compared against the file status cache
(`isUnmodified`); files that are new or modified become `IndexingTask`s
pushed onto the queue. -/
def updatePartQueue (unmodified : Nat → Bool) (q : List IndexingTask)
    (p : ProjectPart) : List IndexingTask :=
  p.files.foldl
    (fun acc f => if unmodified f then acc else pushTask acc ⟨f, p.partId⟩) q

/-- Modelled from the spec: `SymbolIndexer::updateProjectParts` over a whole
project-part set, threading the queue through every part. -/
def updateProjectParts (unmodified : Nat → Bool) (parts : List ProjectPart)
    (q : List IndexingTask) : List IndexingTask :=
  parts.foldl (updatePartQueue unmodified) q

/-! ## The storage writer -/

/-- A symbol row: id, name, kind, unified signature. -/
structure SymbolEntry where
  symbolId : Nat
  name : List Char
  kind : Nat
  signature : List Char
deriving DecidableEq

/-- A symbol-location row: symbol id, file, line, column, role. -/
structure SymbolLocationEntry where
  symbolId : Nat
  filePathId : Nat
  line : Nat
  column : Nat
  role : Nat
deriving DecidableEq

/-- A file status snapshot: last-modified timestamp and size. -/
structure FileStatus where
  lastModified : Int
  size : Int
deriving DecidableEq

/-- The relational store: symbol rows, location rows, and the recorded
file-status snapshots keyed by `FilePathID`. -/
structure Store where
  symbols : List SymbolEntry
  locations : List SymbolLocationEntry
  fileStatuses : List (Nat × FileStatus)
deriving DecidableEq

/-- The transient result a collector hands to the storage writer: the file,
the extracted symbol and location batches, and the file-status snapshot
the collection was produced under. -/
structure IndexingResult where
  filePathId : Nat
  symbols : List SymbolEntry
  locations : List SymbolLocationEntry
  status : FileStatus
deriving DecidableEq

/-- The outcome the storage writer reports for one commit. -/
inductive Outcome where
  | success
  | failure
deriving DecidableEq

/-- Modelled from the spec: the first transaction step — delete all prior
location entries for the file's `FilePathID`. -/
def deletePriorLocations (st : Store) (fid : Nat) : Store :=
  { st with locations := st.locations.filter (fun l => l.filePathId != fid) }

/-- Modelled from the spec: the second transaction step — insert the new
batch of symbol and location rows (symbols upserted by id, keeping keys
unique within the store). -/
def insertNewBatch (st : Store) (r : IndexingResult) : Store :=
  { st with
      symbols :=
        st.symbols.filter (fun s => r.symbols.all (fun n => n.symbolId != s.symbolId))
          ++ r.symbols,
      locations := st.locations ++ r.locations }

/-- Modelled from the spec: the third transaction step — update the file's
recorded status snapshot. -/
def updateFileStatus (st : Store) (fid : Nat) (fs : FileStatus) : Store :=
  { st with
      fileStatuses := (fid, fs) :: st.fileStatuses.filter (fun e => e.1 != fid) }

/-- The fully applied transaction body: delete prior locations, insert the
new batch, update the file status. -/
def applyResult (st : Store) (r : IndexingResult) : Store :=
  updateFileStatus (insertNewBatch (deletePriorLocations st r.filePathId) r)
    r.filePathId r.status

/-- Modelled from the spec: `SymbolStorage` commit of one `IndexingResult`
inside a single Sqlite transaction.  `txFails` is the environment's verdict
on the transaction (I/O error, constraint violation): on failure the
transaction is rolled back, leaving the store at its pre-commit rows and
reporting failure; on success the fully applied store is committed. -/
def commitResult (txFails : Bool) (st : Store) (r : IndexingResult) :
    Store × Outcome :=
  if txFails then (st, .failure) else (applyResult st r, .success)

/-- The location rows recorded for one file. -/
def locationsOf (st : Store) (fid : Nat) : List SymbolLocationEntry :=
  st.locations.filter (fun l => l.filePathId == fid)

/-- The recorded status snapshot of one file, if any. -/
def statusOf (st : Store) (fid : Nat) : Option FileStatus :=
  (st.fileStatuses.find? (fun e => e.1 == fid)).map (fun e => e.2)

/-! ## QML profiler statistics view (qmlprofilerstatisticsview.cpp) -/

/-- The `RangeType` enumeration of the QML profiler. -/
inductive RangeType where
  | Painting
  | Compiling
  | Creating
  | Binding
  | HandlingSignal
  | Javascript
  | MaximumRangeType
deriving DecidableEq

/-- Translation (`tr`) modelled as the identity on the source string: the
base-locale translation of a string is the string itself, and it is
non-empty exactly when the source string is. -/
def tr (s : List Char) : List Char := s

/-- `QmlProfilerStatisticsMainView::nameForType` (lines 603-614): the six
named range types map to their translated display names, everything else
falls to the `default` branch returning the empty string. -/
def nameForType : RangeType → List Char
  | .Painting => tr "Painting".toList
  | .Compiling => tr "Compiling".toList
  | .Creating => tr "Creating".toList
  | .Binding => tr "Binding".toList
  | .HandlingSignal => tr "Handling Signal".toList
  | .Javascript => tr "JavaScript".toList
  | .MaximumRangeType => []

/-- A QML event type as consumed by the statistics view: its range type,
display name and data string (strings as character lists). -/
structure QmlEventType where
  rangeType : RangeType
  displayName : List Char
  data : List Char
deriving DecidableEq

/-- The ellipsis character `QChar(0x2026)` of
`QmlProfilerStatisticsView::details`. -/
def ellipsisChar : Char := Char.ofNat 0x2026

/-- The `maxColumnWidth` constant of `QmlProfilerStatisticsView::details`. -/
def maxColumnWidth : Nat := 32

/-- The middle-element computation of `QmlProfilerStatisticsView::details`
(lines 300-302): `if (data.length() > maxColumnWidth) data =
data.left(maxColumnWidth - 1) + ellipsisChar;`. -/
def truncatedDetailsData (data : List Char) : List Char :=
  if maxColumnWidth < data.length then
    data.take (maxColumnWidth - 1) ++ [ellipsisChar]
  else data

/-- `QmlProfilerStatisticsView::details` (lines 293-309): a three-element
list of the range-type name, the possibly truncated data string, and the
formatted duration percentage followed by a percent sign.  The percentage
formatting (`QString::number(..., 'f', 2)` on a `double`) is abstracted as
the `pctText` argument. -/
def details (ty : QmlEventType) (pctText : List Char) : List (List Char) :=
  [nameForType ty.rangeType, truncatedDetailsData ty.data, pctText ++ ['%']]

/-! ## SortPreserver and the tree views -/

/-- The sort indicator of a `QHeaderView`: section (column) and order. -/
structure SortIndicator where
  column : Int
  descending : Bool
deriving DecidableEq

/-- The state of a `Utils::TreeView` over model contents of type `α`: the
header's sort indicator, whether sorting is enabled, and the contents. -/
structure TreeViewState (α : Type) where
  indicator : SortIndicator
  sortingEnabled : Bool
  contents : α

/-- `QTreeView::setSortingEnabled`. -/
def setSortingEnabled (b : Bool) (s : TreeViewState α) : TreeViewState α :=
  { s with sortingEnabled := b }

/-- `QTreeView::sortByColumn`: sets the header's sort indicator. -/
def sortByColumn (c : Int) (desc : Bool) (s : TreeViewState α) :
    TreeViewState α :=
  { s with indicator := ⟨c, desc⟩ }

/-- The `SortPreserver` RAII scope (lines 52-70): on entry record the
header's sort indicator and disable sorting; run the body; on exit
re-enable sorting and `sortByColumn` with the recorded column and order. -/
def withSortPreserver (body : TreeViewState α → TreeViewState α)
    (s : TreeViewState α) : TreeViewState α :=
  sortByColumn s.indicator.column s.indicator.descending
    (setSortingEnabled true (body (setSortingEnabled false s)))

/-- The default sort indicator a freshly reset `QStandardItemModel` leaves
on the view's header — the state the wrapped bodies may clobber the
indicator to, and what `SortPreserver` exists to guard against. -/
def resetIndicator : SortIndicator := ⟨0, false⟩

/-- Contents of the main statistics model: rows, column count, and whether
the header labels have been set. -/
structure StatsModel where
  rows : List (List (List Char))
  columnCount : Nat
  headersSet : Bool
deriving DecidableEq

/-- The `MaxMainField` column count of the main view. -/
def maxMainField : Nat := 12

/-- `QmlProfilerStatisticsMainView::clear` (lines 470-476): inside a
`SortPreserver` scope, clear the model (which also resets the header's sort
indicator), restore the column count and set the header labels. -/
def mainViewClear (s : TreeViewState StatsModel) : TreeViewState StatsModel :=
  withSortPreserver
    (fun v =>
      { v with
          contents := { rows := [], columnCount := maxMainField, headersSet := true },
          indicator := resetIndicator })
    s

/-- `QmlProfilerStatisticsMainView::buildModel` (lines 478-491): call
`clear()`, then inside a second `SortPreserver` scope parse the model
(abstracted as `parse` acting on the contents). -/
def mainViewBuildModel (parse : StatsModel → StatsModel)
    (s : TreeViewState StatsModel) : TreeViewState StatsModel :=
  withSortPreserver (fun v => { v with contents := parse v.contents })
    (mainViewClear s)

/-- Contents of a relatives model: rows and whether the header is set. -/
structure RelativesModel where
  rows : List (List (List Char))
  headerSet : Bool
deriving DecidableEq

/-- `QmlProfilerStatisticsRelativesView::displayType` (lines 757-764):
inside a `SortPreserver` scope, rebuild the tree from the model's data for
the type (the rebuilt rows are abstracted as `newRows`; the intermediate
`treeModel()->clear()` also resets the indicator) and update the header. -/
def relativesDisplayType (newRows : List (List (List Char)))
    (s : TreeViewState RelativesModel) : TreeViewState RelativesModel :=
  withSortPreserver
    (fun v =>
      { v with
          contents := { rows := newRows, headerSet := true },
          indicator := resetIndicator })
    s

/-- `QmlProfilerStatisticsRelativesView::clear` (lines 817-824): when a
tree model is present, clear it and update the header inside a
`SortPreserver` scope; otherwise do nothing. -/
def relativesClear (hasModel : Bool) (s : TreeViewState RelativesModel) :
    TreeViewState RelativesModel :=
  if hasModel then
    withSortPreserver
      (fun v =>
        { v with
            contents := { rows := [], headerSet := true },
            indicator := resetIndicator })
      s
  else s

/-! ## Concrete states used by witnesses -/

/-- A concrete scheduler state: 3 in-flight (unfinished) futures and
5 pending tasks, limit 4, dispatch enabled. -/
def witSched : Scheduler :=
  { limit := 4,
    enabled := true,
    futures := [⟨false⟩, ⟨false⟩, ⟨false⟩],
    queue := [⟨1, 0⟩, ⟨2, 0⟩, ⟨3, 0⟩, ⟨4, 0⟩, ⟨5, 0⟩] }

/-- A concrete task for file 1 under part 10. -/
def witTaskA : IndexingTask := ⟨1, 10⟩

/-- A concrete task for file 1 under part 20 (same file, new context). -/
def witTaskA2 : IndexingTask := ⟨1, 20⟩

/-- A concrete task for file 2 under part 10. -/
def witTaskB : IndexingTask := ⟨2, 10⟩

/-- A concrete store with one location row for file 1 and one for file 2. -/
def witStore : Store :=
  { symbols := [⟨7, "f".toList, 0, "f()".toList⟩],
    locations := [⟨7, 1, 3, 4, 0⟩, ⟨8, 2, 5, 6, 1⟩],
    fileStatuses := [(1, ⟨100, 10⟩)] }

/-- A concrete indexing result for file 1. -/
def witResult : IndexingResult :=
  { filePathId := 1,
    symbols := [⟨9, "g".toList, 1, "g()".toList⟩],
    locations := [⟨9, 1, 8, 2, 2⟩],
    status := ⟨200, 12⟩ }

/-- A concrete event type whose data string has 33 characters. -/
def witTypeLong : QmlEventType :=
  { rangeType := .Binding, displayName := [], data := List.replicate 33 'a' }

/-- A concrete event type whose data string has 2 characters. -/
def witTypeShort : QmlEventType :=
  { rangeType := .Javascript, displayName := [], data := ['h', 'i'] }

/-! ## Scheduler lemmas -/

theorem dispatchPending_disabled (s : Scheduler) (h : s.enabled = false) :
    dispatchPending s = s := by
  simp [dispatchPending, h]

theorem drainLoop_of_empty (n : Nat) (s : Scheduler) (h : s.futures = []) :
    drainLoop n s = s := by
  cases n <;> simp [drainLoop, h]

theorem sync_free_disabled (s : Scheduler) (h : s.enabled = false) :
    schedulerFreeSlots (schedulerSyncTasks s) = { s with futures := [] } := by
  unfold schedulerFreeSlots schedulerSyncTasks
  rw [dispatchPending_disabled _ (by simp [h])]
  simp [List.filter_eq_nil_iff]

theorem drainLoop_disabled (n : Nat) (s : Scheduler) (h : s.enabled = false) :
    drainLoop (n + 1) s = { s with futures := [] } := by
  by_cases he : s.futures = []
  · rw [drainLoop_of_empty _ _ he, ← he]
  · unfold drainLoop
    rw [if_neg (by simpa [List.isEmpty_iff] using he), sync_free_disabled s h]
    exact drainLoop_of_empty n _ rfl

theorem symbolIndexingSyncTasks_eq (s : Scheduler) :
    symbolIndexingSyncTasks s = { s with enabled := false, futures := [] } := by
  unfold symbolIndexingSyncTasks
  rw [drainLoop_disabled _ _ rfl]
  simp [schedulerDisable]

/-- C2: `SymbolIndexing::syncTasks` is a blocking drain: the synchronization
step completes every previously tracked future, and whenever the drain
returns the scheduler's futures collection is empty, regardless of the
futures in flight when it was called. -/
theorem syncTasks_is_blocking_drain (s : Scheduler) :
    ((schedulerSyncTasks (schedulerDisable s)).futures.all
      (fun f => f.finished)) = true ∧
    (symbolIndexingSyncTasks s).futures = [] := by
  constructor
  · simp [schedulerSyncTasks, schedulerDisable, List.all_eq_true]
  · rw [symbolIndexingSyncTasks_eq]

/-- C3: the destructor of `SymbolIndexing` performs the drain sequence —
dispatch is disabled first, then tasks are synchronized and slots freed
until no futures remain; at return no future is tracked, dispatch is off,
and the pending queue was never dispatched after the disable. -/
theorem destructor_drains_in_order (s : Scheduler) :
    (symbolIndexingDestructor s).enabled = false ∧
    (symbolIndexingDestructor s).futures = [] ∧
    (symbolIndexingDestructor s).queue = s.queue := by
  unfold symbolIndexingDestructor
  rw [symbolIndexingSyncTasks_eq]
  exact ⟨rfl, rfl, rfl⟩

/-- C5: after `disable()`, pending tasks are never dispatched while futures
already running run to completion: with 3 tasks dispatched and 5 pending at
the moment of disabling, the 3 in-flight futures stay tracked and all
complete under synchronization, and the 5 pending tasks survive the whole
drain undispatched. -/
theorem disable_stops_dispatch (s : Scheduler)
    (hf : s.futures.length = 3) (hq : s.queue.length = 5) :
    (schedulerSyncTasks (schedulerDisable s)).futures.length = 3 ∧
    ((schedulerSyncTasks (schedulerDisable s)).futures.all
      (fun f => f.finished)) = true ∧
    (symbolIndexingSyncTasks s).queue = s.queue ∧
    (symbolIndexingSyncTasks s).queue.length = 5 ∧
    (symbolIndexingSyncTasks s).futures = [] := by
  refine ⟨by simp [schedulerSyncTasks, schedulerDisable, hf], ?_, ?_, ?_, ?_⟩
  · simp [List.all_eq_true, schedulerSyncTasks, schedulerDisable]
  · rw [symbolIndexingSyncTasks_eq]
  · rw [symbolIndexingSyncTasks_eq]; exact hq
  · rw [symbolIndexingSyncTasks_eq]

/-- Witness for C5 at the concrete state `witSched`. -/
theorem disable_stops_dispatch_witness :
    witSched.futures.length = 3 ∧ witSched.queue.length = 5 ∧
    (symbolIndexingSyncTasks witSched).queue = witSched.queue ∧
    (symbolIndexingSyncTasks witSched).futures = [] := by
  have h := disable_stops_dispatch witSched (by decide) (by decide)
  exact ⟨by decide, by decide, h.2.2.1, h.2.2.2.2⟩

/-! ## Concurrency-limit lemmas -/

theorem dispatchPending_limit (s : Scheduler) :
    (dispatchPending s).limit = s.limit := by
  unfold dispatchPending
  split <;> rfl

theorem dispatchPending_inv (s : Scheduler)
    (h : s.futures.length ≤ s.limit) :
    (dispatchPending s).futures.length ≤ (dispatchPending s).limit := by
  unfold dispatchPending
  split
  · simp only [List.length_append, List.length_replicate]
    have hk : min (s.limit - s.futures.length) s.queue.length ≤
        s.limit - s.futures.length := Nat.min_le_left _ _
    omega
  · exact h

theorem applyOp_limit (s : Scheduler) (op : SchedOp) :
    (applyOp s op).limit = s.limit := by
  cases op <;>
    simp [applyOp, schedulerEnqueue, schedulerFreeSlots, schedulerSyncTasks,
      schedulerDisable, dispatchPending_limit]

theorem applyOp_inv (s : Scheduler) (op : SchedOp)
    (h : s.futures.length ≤ s.limit) :
    (applyOp s op).futures.length ≤ (applyOp s op).limit := by
  cases op with
  | enqueue t => exact dispatchPending_inv _ h
  | freeSlots =>
    refine dispatchPending_inv _ ?_
    calc (s.futures.filter (fun f => !f.finished)).length
        ≤ s.futures.length := List.length_filter_le _ _
      _ ≤ s.limit := h
  | sync => simpa [applyOp, schedulerSyncTasks] using h
  | disable => simpa [applyOp, schedulerDisable] using h

theorem runOps_inv (ops : List SchedOp) (s : Scheduler)
    (h : s.futures.length ≤ s.limit) :
    (runOps s ops).futures.length ≤ (runOps s ops).limit ∧
    (runOps s ops).limit = s.limit := by
  induction ops generalizing s with
  | nil => exact ⟨h, rfl⟩
  | cons op ops ih =>
    have h1 := applyOp_inv s op h
    have h2 := applyOp_limit s op
    have := ih (applyOp s op) h1
    exact ⟨this.1, this.2.trans h2⟩

/-- C6: the number of in-flight futures tracked by the scheduler never
exceeds the configured concurrency limit along any sequence of operations,
and `SymbolIndexing` constructs its scheduler with that limit equal to the
host hardware's concurrency count. -/
theorem futures_bounded_by_limit (hw : Nat) (ops : List SchedOp) :
    (mkSymbolIndexingScheduler hw).limit = hw ∧
    (runOps (mkSymbolIndexingScheduler hw) ops).limit = hw ∧
    (runOps (mkSymbolIndexingScheduler hw) ops).futures.length ≤ hw := by
  have h := runOps_inv ops (mkSymbolIndexingScheduler hw)
    (by simp [mkSymbolIndexingScheduler])
  refine ⟨rfl, ?_, ?_⟩
  · exact h.2
  · calc (runOps (mkSymbolIndexingScheduler hw) ops).futures.length
        ≤ (runOps (mkSymbolIndexingScheduler hw) ops).limit := h.1
      _ = hw := h.2

/-! ## Queue dedup lemmas -/

theorem pushTask_any_iff (q : List IndexingTask) (t : IndexingTask) :
    (q.any (fun u => u.filePathId == t.filePathId)) = true ↔
    t.filePathId ∈ queueFids q := by
  simp [List.any_eq_true, queueFids, List.mem_map]

theorem queueFids_pushTask_of_mem (q : List IndexingTask) (t : IndexingTask)
    (h : t.filePathId ∈ queueFids q) :
    queueFids (pushTask q t) = queueFids q := by
  unfold pushTask
  rw [if_pos ((pushTask_any_iff q t).2 h)]
  unfold queueFids
  rw [List.map_map]
  apply List.map_congr_left
  intro u _
  by_cases hu : u.filePathId = t.filePathId
  · simp [hu]
  · simp [hu]

theorem length_pushTask_of_mem (q : List IndexingTask) (t : IndexingTask)
    (h : t.filePathId ∈ queueFids q) :
    (pushTask q t).length = q.length := by
  unfold pushTask
  rw [if_pos ((pushTask_any_iff q t).2 h)]
  exact List.length_map _ _

theorem queueFids_pushTask_of_not_mem (q : List IndexingTask)
    (t : IndexingTask) (h : t.filePathId ∉ queueFids q) :
    queueFids (pushTask q t) = queueFids q ++ [t.filePathId] := by
  unfold pushTask
  rw [if_neg (fun hc => h ((pushTask_any_iff q t).1 hc))]
  simp [queueFids]

theorem nodup_pushTask (q : List IndexingTask) (t : IndexingTask)
    (h : (queueFids q).Nodup) : (queueFids (pushTask q t)).Nodup := by
  by_cases hm : t.filePathId ∈ queueFids q
  · rw [queueFids_pushTask_of_mem q t hm]; exact h
  · rw [queueFids_pushTask_of_not_mem q t hm]
    simp [List.nodup_append, h, hm]

theorem nodup_foldl_pushTask (ts : List IndexingTask)
    (q : List IndexingTask) (h : (queueFids q).Nodup) :
    (queueFids (ts.foldl pushTask q)).Nodup := by
  induction ts generalizing q with
  | nil => exact h
  | cons t ts ih => exact ih (pushTask q t) (nodup_pushTask q t h)

theorem fids_pushTask_subset (q : List IndexingTask) (t : IndexingTask) :
    ∀ x ∈ queueFids (pushTask q t), x ∈ queueFids q ∨ x = t.filePathId := by
  intro x hx
  by_cases hm : t.filePathId ∈ queueFids q
  · rw [queueFids_pushTask_of_mem q t hm] at hx; exact Or.inl hx
  · rw [queueFids_pushTask_of_not_mem q t hm] at hx
    simpa using List.mem_append.1 hx

theorem fids_foldl_subset (ts : List IndexingTask) (q : List IndexingTask) :
    ∀ x ∈ queueFids (ts.foldl pushTask q),
      x ∈ queueFids q ∨ x ∈ ts.map (fun t => t.filePathId) := by
  induction ts generalizing q with
  | nil => exact fun x hx => Or.inl hx
  | cons t ts ih =>
    intro x hx
    rcases ih (pushTask q t) x hx with h1 | h1
    · rcases fids_pushTask_subset q t x h1 with h2 | h2
      · exact Or.inl h2
      · exact Or.inr (by simp [h2])
    · exact Or.inr (by simp [h1])

theorem nodup_length_le_dedup {l m : List Nat} (hn : l.Nodup)
    (hs : ∀ x ∈ l, x ∈ m) : l.length ≤ m.dedup.length := by
  have h1 : l.toFinset.card = l.length := List.toFinset_card_of_nodup hn
  have h2 : m.toFinset.card = m.dedup.length := List.card_toFinset m
  have h3 : l.toFinset ⊆ m.toFinset := by
    intro x hx
    rw [List.mem_toFinset] at hx ⊢
    exact hs x hx
  calc l.length = l.toFinset.card := h1.symm
    _ ≤ m.toFinset.card := Finset.card_le_card h3
    _ = m.dedup.length := h2

/-- C1: along every sequence of pushes the queue holds at most one pending
task per `FilePathID` (the `FilePathID`s in the queue are pairwise
distinct); a push for a `FilePathID` already present replaces the stored
context in place, leaving both the queue's length and its `FilePathID`s
unchanged; and the queue size is bounded by the number of distinct files
pushed, not the number of update requests. -/
theorem queue_dedup_invariant (ts : List IndexingTask) :
    (queueFids (ts.foldl pushTask [])).Nodup ∧
    (∀ q t, t.filePathId ∈ queueFids q →
      (pushTask q t).length = q.length ∧
      queueFids (pushTask q t) = queueFids q) ∧
    (ts.foldl pushTask []).length ≤
      ((ts.map (fun t => t.filePathId)).dedup).length := by
  refine ⟨nodup_foldl_pushTask ts [] (by simp [queueFids]), ?_, ?_⟩
  · intro q t h
    exact ⟨length_pushTask_of_mem q t h, queueFids_pushTask_of_mem q t h⟩
  · have hlen : (ts.foldl pushTask []).length =
        (queueFids (ts.foldl pushTask [])).length := by
      simp [queueFids]
    rw [hlen]
    apply nodup_length_le_dedup (nodup_foldl_pushTask ts [] (by simp [queueFids]))
    intro x hx
    rcases fids_foldl_subset ts [] x hx with h1 | h1
    · simp [queueFids] at h1
    · exact h1

/-- Witness for C1: concrete pushes for files 1, 2 and again 1 leave a
two-task queue with distinct `FilePathID`s, and the in-place replacement
keeps the length at 1 when file 1 is pushed twice. -/
theorem queue_dedup_invariant_witness :
    (queueFids ([witTaskA, witTaskB, witTaskA2].foldl pushTask [])).Nodup ∧
    witTaskA2.filePathId ∈ queueFids [witTaskA] ∧
    (pushTask [witTaskA] witTaskA2).length = 1 ∧
    queueFids (pushTask [witTaskA] witTaskA2) = queueFids [witTaskA] ∧
    ([witTaskA, witTaskB, witTaskA2].foldl pushTask []).length ≤
      (([witTaskA, witTaskB, witTaskA2].map
        (fun t => t.filePathId)).dedup).length := by
  have h := queue_dedup_invariant [witTaskA, witTaskB, witTaskA2]
  have hm : witTaskA2.filePathId ∈ queueFids [witTaskA] := by decide
  have h2 := h.2.1 [witTaskA] witTaskA2 hm
  exact ⟨h.1, hm, h2.1, h2.2, h.2.2⟩

/-! ## Indexer idempotence -/

theorem foldl_files_unmodified (unmodified : Nat → Bool) (pid : Nat)
    (fs : List Nat) :
    ∀ q, (∀ f ∈ fs, unmodified f = true) →
      fs.foldl
        (fun acc f => if unmodified f then acc else pushTask acc ⟨f, pid⟩)
        q = q := by
  induction fs with
  | nil => intro q _; rfl
  | cons f fs ih =>
    intro q h
    have hf : unmodified f = true := h f (by simp)
    simp only [List.foldl_cons, hf, if_true]
    exact ih q (fun g hg => h g (by simp [hg]))

theorem updatePartQueue_unmodified (unmodified : Nat → Bool)
    (p : ProjectPart) (q : List IndexingTask)
    (h : ∀ f ∈ p.files, unmodified f = true) :
    updatePartQueue unmodified q p = q :=
  foldl_files_unmodified unmodified p.partId p.files q h

theorem foldl_parts_unmodified (unmodified : Nat → Bool)
    (parts : List ProjectPart) :
    ∀ q, (∀ p ∈ parts, ∀ f ∈ p.files, unmodified f = true) →
      parts.foldl (updatePartQueue unmodified) q = q := by
  induction parts with
  | nil => intro q _; rfl
  | cons p ps ih =>
    intro q h
    simp only [List.foldl_cons]
    rw [updatePartQueue_unmodified unmodified p q (h p (by simp))]
    exact ih q (fun p2 hp2 => h p2 (by simp [hp2]))

/-- C7: `updateProjectParts` is idempotent with respect to unchanged input —
when the file status cache reports every file referenced by the project
parts as unmodified, re-running it enqueues zero new tasks and returns the
queue unchanged. -/
theorem updateProjectParts_idempotent (unmodified : Nat → Bool)
    (parts : List ProjectPart) (q : List IndexingTask)
    (h : ∀ p ∈ parts, ∀ f ∈ p.files, unmodified f = true) :
    updateProjectParts unmodified parts q = q :=
  foldl_parts_unmodified unmodified parts q h

/-- Witness for C7: a cache reporting every file unmodified makes a
concrete `updateProjectParts` run a no-op on a nonempty part set. -/
theorem updateProjectParts_idempotent_witness :
    (∀ p ∈ [ProjectPart.mk 10 [1, 2, 3]], ∀ f ∈ p.files,
      (fun _ => true) f = true) ∧
    updateProjectParts (fun _ => true) [ProjectPart.mk 10 [1, 2, 3]]
      [witTaskA] = [witTaskA] := by
  refine ⟨by decide, ?_⟩
  exact updateProjectParts_idempotent (fun _ => true)
    [ProjectPart.mk 10 [1, 2, 3]] [witTaskA] (by decide)

/-! ## Storage commit lemmas -/

theorem applyResult_locations (st : Store) (r : IndexingResult) :
    (applyResult st r).locations =
      st.locations.filter (fun l => l.filePathId != r.filePathId)
        ++ r.locations := rfl

theorem locationsOf_applyResult_self (st : Store) (r : IndexingResult)
    (hr : ∀ l ∈ r.locations, l.filePathId = r.filePathId) :
    locationsOf (applyResult st r) r.filePathId = r.locations := by
  unfold locationsOf
  rw [applyResult_locations, List.filter_append]
  have h1 : (st.locations.filter
      (fun l => l.filePathId != r.filePathId)).filter
      (fun l => l.filePathId == r.filePathId) = [] := by
    rw [List.filter_filter]
    apply List.filter_eq_nil_iff.2
    intro l _
    by_cases hl : l.filePathId = r.filePathId <;> simp [hl]
  have h2 : r.locations.filter
      (fun l => l.filePathId == r.filePathId) = r.locations := by
    apply List.filter_eq_self.2
    intro l hl
    simp [hr l hl]
  rw [h1, h2, List.nil_append]

theorem locationsOf_applyResult_other (st : Store) (r : IndexingResult)
    (fid : Nat) (hne : fid ≠ r.filePathId)
    (hr : ∀ l ∈ r.locations, l.filePathId = r.filePathId) :
    locationsOf (applyResult st r) fid = locationsOf st fid := by
  unfold locationsOf
  rw [applyResult_locations, List.filter_append]
  have h2 : r.locations.filter (fun l => l.filePathId == fid) = [] := by
    apply List.filter_eq_nil_iff.2
    intro l hl
    rw [hr l hl]
    simp
    omega
  rw [h2, List.append_nil, List.filter_filter]
  apply List.filter_congr
  intro l _
  by_cases hl : l.filePathId = fid
  · simp [hl]
    omega
  · simp [hl]

theorem statusOf_applyResult_self (st : Store) (r : IndexingResult) :
    statusOf (applyResult st r) r.filePathId = some r.status := by
  simp [statusOf, applyResult, updateFileStatus, List.find?]

/-- Modelled from the spec: the orchestrator advances the file status cache
for the committed file only when the commit outcome is success; on failure
the cache is untouched, leaving the file eligible for re-indexing. -/
def advanceCacheOnOutcome (oc : Outcome) (fid : Nat)
    (cache : Nat → Bool) : Nat → Bool :=
  match oc with
  | .success => fun f => if f == fid then true else cache f
  | .failure => cache

/-- C4: the storage writer's commit is atomic — the committed store is
either exactly the pre-commit store or exactly the fully applied
delete-insert-update result, never anything in between; on transaction
failure the store keeps its pre-commit rows, the file status cache is not
advanced and failure is the reported outcome; on success the file's
location rows are exactly the new batch, every other file's rows are
untouched, and the file's recorded status snapshot is the new one. -/
theorem commit_transactional (txFails : Bool) (st : Store)
    (r : IndexingResult) (cache : Nat → Bool)
    (hr : ∀ l ∈ r.locations, l.filePathId = r.filePathId) :
    ((commitResult txFails st r).1 = st ∨
      (commitResult txFails st r).1 = applyResult st r) ∧
    (txFails = true →
      (commitResult txFails st r).1 = st ∧
      (commitResult txFails st r).2 = Outcome.failure ∧
      advanceCacheOnOutcome (commitResult txFails st r).2 r.filePathId cache
        = cache ∧
      statusOf (commitResult txFails st r).1 r.filePathId
        = statusOf st r.filePathId) ∧
    (txFails = false →
      (commitResult txFails st r).2 = Outcome.success ∧
      locationsOf (commitResult txFails st r).1 r.filePathId = r.locations ∧
      (∀ fid, fid ≠ r.filePathId →
        locationsOf (commitResult txFails st r).1 fid = locationsOf st fid) ∧
      statusOf (commitResult txFails st r).1 r.filePathId
        = some r.status) := by
  cases txFails with
  | true =>
    refine ⟨Or.inl rfl, fun _ => ⟨rfl, rfl, rfl, rfl⟩, fun hc => ?_⟩
    exact absurd hc (by simp)
  | false =>
    refine ⟨Or.inr rfl, fun hc => absurd hc (by simp), fun _ => ?_⟩
    refine ⟨rfl, ?_, ?_, ?_⟩
    · exact locationsOf_applyResult_self st r hr
    · intro fid hne
      exact locationsOf_applyResult_other st r fid hne hr
    · exact statusOf_applyResult_self st r

/-- Witness for C4 at a concrete store and result, in both the failing and
the succeeding transaction. -/
theorem commit_transactional_witness :
    (∀ l ∈ witResult.locations, l.filePathId = witResult.filePathId) ∧
    (commitResult true witStore witResult).1 = witStore ∧
    (commitResult true witStore witResult).2 = Outcome.failure ∧
    (commitResult false witStore witResult).2 = Outcome.success ∧
    locationsOf (commitResult false witStore witResult).1
      witResult.filePathId = witResult.locations ∧
    locationsOf (commitResult false witStore witResult).1 2
      = locationsOf witStore 2 ∧
    statusOf (commitResult false witStore witResult).1 witResult.filePathId
      = some witResult.status := by
  have hr : ∀ l ∈ witResult.locations, l.filePathId = witResult.filePathId := by
    decide
  have ht := commit_transactional true witStore witResult (fun _ => false) hr
  have hf := commit_transactional false witStore witResult (fun _ => false) hr
  have ht2 := ht.2.1 rfl
  have hf2 := hf.2.2 rfl
  exact ⟨hr, ht2.1, ht2.2.1, hf2.1, hf2.2.1,
    hf2.2.2.1 2 (by decide), hf2.2.2.2⟩

/-! ## QML profiler statistics view theorems -/

/-- C9: `nameForType` returns a non-empty translated name exactly for the
six range types Painting, Compiling, Creating, Binding, HandlingSignal and
Javascript, and the empty string for every other `RangeType` value. -/
theorem nameForType_nonempty_iff (rt : RangeType) :
    ((nameForType rt).isEmpty = false ↔
      (rt = RangeType.Painting ∨ rt = RangeType.Compiling ∨
       rt = RangeType.Creating ∨ rt = RangeType.Binding ∨
       rt = RangeType.HandlingSignal ∨ rt = RangeType.Javascript)) ∧
    nameForType RangeType.MaximumRangeType = [] := by
  cases rt <;> exact ⟨by decide, by decide⟩

/-- C8: `details` returns a three-element list; its middle element is the
type's data string truncated so that when the data length exceeds 32
characters the result has exactly 32 characters and ends with the ellipsis
character U+2026, and is the unmodified data string otherwise. -/
theorem details_middle_truncated (ty : QmlEventType) (pct : List Char) :
    (details ty pct).length = 3 ∧
    (details ty pct)[1]? = some (truncatedDetailsData ty.data) ∧
    (32 < ty.data.length →
      (truncatedDetailsData ty.data).length = 32 ∧
      (truncatedDetailsData ty.data).getLast? = some ellipsisChar) ∧
    (ty.data.length ≤ 32 → truncatedDetailsData ty.data = ty.data) := by
  refine ⟨rfl, rfl, fun h => ?_, fun h => ?_⟩
  · unfold truncatedDetailsData maxColumnWidth
    rw [if_pos h]
    constructor
    · rw [List.length_append, List.length_take]
      simp
      omega
    · exact List.getLast?_concat _
  · unfold truncatedDetailsData maxColumnWidth
    rw [if_neg (by omega)]

/-- Witness for C8: a 33-character data string is truncated to exactly 32
characters ending in the ellipsis, while a 2-character data string is
returned unmodified; in both cases `details` has three elements. -/
theorem details_middle_truncated_witness :
    (details witTypeLong ['1']).length = 3 ∧
    32 < witTypeLong.data.length ∧
    (truncatedDetailsData witTypeLong.data).length = 32 ∧
    (truncatedDetailsData witTypeLong.data).getLast? = some ellipsisChar ∧
    witTypeShort.data.length ≤ 32 ∧
    truncatedDetailsData witTypeShort.data = witTypeShort.data := by
  have hl := details_middle_truncated witTypeLong ['1']
  have hs := details_middle_truncated witTypeShort ['1']
  have h1 := hl.2.2.1 (by decide)
  exact ⟨hl.1, by decide, h1.1, h1.2, by decide, hs.2.2.2 (by decide)⟩

/-- C10: every operation wrapped in a `SortPreserver` scope — the main
view's `clear` and `buildModel`, the relatives view's `displayType` and
`clear`, and any body at all — leaves the tree view's sort indicator
(column and order) unchanged, even though sorting is disabled and the
model rebuilt (resetting the indicator) in between. -/
theorem sortPreserver_keeps_indicator (α : Type)
    (body : TreeViewState α → TreeViewState α) (s : TreeViewState α)
    (parse : StatsModel → StatsModel) (sm : TreeViewState StatsModel)
    (newRows : List (List (List Char))) (hasModel : Bool)
    (sr : TreeViewState RelativesModel) :
    (withSortPreserver body s).indicator = s.indicator ∧
    (mainViewClear sm).indicator = sm.indicator ∧
    (mainViewBuildModel parse sm).indicator = sm.indicator ∧
    (relativesDisplayType newRows sr).indicator = sr.indicator ∧
    (relativesClear hasModel sr).indicator = sr.indicator := by
  refine ⟨rfl, rfl, rfl, rfl, ?_⟩
  cases hasModel <;> rfl

end QtCreatorSpec
